import Mathlib

set_option autoImplicit false
set_option linter.unusedVariables false

namespace ApiWeaver

/-- Model of a JavaScript `Error` value: the `name` and `message` fields are the
only parts of an error the orchestration code ever inspects. -/
structure JsError where
  name : String
  message : String
deriving DecidableEq, Repr

/-- Model of JSON-representable JavaScript parameter values, as passed to
`generateCacheKey` (src/core/cache.ts). Numbers are modelled as integers (the
repository only ever passes integer-valued params). Object fields keep their
insertion order, as `JSON.stringify` does. -/
inductive Json where
  | null : Json
  | bool (b : Bool) : Json
  | num (n : Int) : Json
  | str (s : String) : Json
  | arr (elems : List Json) : Json
  | obj (fields : List (String × Json)) : Json
deriving Repr

/-- JavaScript truthiness of an optional JSON value (`none` models a missing /
`undefined` argument; `null`, `false`, `0` and `""` are falsy). -/
def jsTruthy : Option Json → Bool
  | none => false
  | some Json.null => false
  | some (Json.bool b) => b
  | some (Json.num n) => n != 0
  | some (Json.str s) => s != ""
  | some (Json.arr _) => true
  | some (Json.obj _) => true

/-- JavaScript truthiness of an optional string (`none` models `undefined`; the
empty string is falsy). -/
def strTruthy : Option String → Bool
  | none => false
  | some s => s != ""

/-- Decimal digit characters of a natural number, most significant first,
accumulator form. -/
def natCharsAux (n : Nat) (acc : List Char) : List Char :=
  if h : n / 10 = 0 then Char.ofNat (48 + n % 10) :: acc
  else natCharsAux (n / 10) (Char.ofNat (48 + n % 10) :: acc)
termination_by n
decreasing_by
  exact Nat.div_lt_self (Nat.pos_of_ne_zero (fun h0 => h (by rw [h0]))) (by decide)

/-- Decimal digit characters of a natural number, most significant first (what
JavaScript prints for a non-negative integer number). -/
def natChars (n : Nat) : List Char := natCharsAux n []

/-- Decimal character rendering of an integer (what JavaScript prints for an
integer number). -/
def intChars (n : Int) : List Char :=
  if n < 0 then '-' :: natChars n.natAbs else natChars n.natAbs

/-- The open-brace character, written via its code point. -/
def lbraceChar : Char := Char.ofNat 123

/-- The close-brace character, written via its code point. -/
def rbraceChar : Char := Char.ofNat 125

/-- Escaping of one character inside a JSON string literal. Quote and backslash
escaping is modelled; control-character escapes are elided (no claim involves
control characters). -/
def escChar (c : Char) : List Char :=
  if c = '"' then ['\\', '"']
  else if c = '\\' then ['\\', '\\']
  else [c]

/-- Escaped body of a JSON string literal. -/
def strBody (cs : List Char) : List Char := cs.flatMap escChar

mutual
/-- Model of `JSON.stringify` on a JSON value, producing the character list of
the serialized text. -/
def Json.stringifyChars : Json → List Char
  | Json.null => ['n', 'u', 'l', 'l']
  | Json.bool true => ['t', 'r', 'u', 'e']
  | Json.bool false => ['f', 'a', 'l', 's', 'e']
  | Json.num n => intChars n
  | Json.str s => '"' :: (strBody s.data ++ ['"'])
  | Json.arr elems => '[' :: (Json.stringifyArr elems ++ [']'])
  | Json.obj fields => lbraceChar :: (Json.stringifyObj fields ++ [rbraceChar])

/-- Comma-separated serialization of the elements of a JSON array. -/
def Json.stringifyArr : List Json → List Char
  | [] => []
  | [x] => Json.stringifyChars x
  | x :: y :: rest => Json.stringifyChars x ++ ',' :: Json.stringifyArr (y :: rest)

/-- Comma-separated serialization of the fields of a JSON object. -/
def Json.stringifyObj : List (String × Json) → List Char
  | [] => []
  | [(k, v)] => '"' :: (strBody k.data ++ '"' :: ':' :: Json.stringifyChars v)
  | (k, v) :: f :: rest =>
      '"' :: (strBody k.data ++ '"' :: ':' :: Json.stringifyChars v
        ++ ',' :: Json.stringifyObj (f :: rest))
end

/-- Model of `JSON.stringify`, as a string. -/
def Json.stringify (j : Json) : String := String.mk (Json.stringifyChars j)

/-- A cache entry as stored by `CacheManager` (src/core/cache.ts): the stored
JavaScript value (`none` models a stored `null`), the `Date.now()` timestamp
taken at `set` time, and the entry's TTL in milliseconds. -/
structure CacheEntry (β : Type) where
  data : Option β
  timestamp : Int
  ttl : Int
deriving Repr

/-- The `Map` held by `CacheManager`, modelled as a partial function from keys
to entries. -/
def CacheStore (β : Type) : Type := String → Option (CacheEntry β)

/-- The empty cache store. -/
def CacheStore.empty (β : Type) : CacheStore β := fun _ => none

namespace CacheManager

/-- Model of `CacheManager.set`: unconditionally overwrite the entry for the
key, stamping it with the current time and the given TTL. -/
def set {β : Type} (c : CacheStore β) (key : String) (d : Option β) (now ttl : Int) :
    CacheStore β :=
  fun k => if k = key then some ⟨d, now, ttl⟩ else c k

/-- Model of `CacheManager.delete`. -/
def delete {β : Type} (c : CacheStore β) (key : String) : CacheStore β :=
  fun k => if k = key then none else c k

/-- Model of `CacheManager.get`: returns the JavaScript value the method
returns (`none` models the `null` returned on a miss, on lazy expiry, or for a
stored `null`) together with the store after the call. An entry whose age
`now - timestamp` strictly exceeds its TTL is deleted lazily by the read; the
store is otherwise untouched. -/
def get {β : Type} (c : CacheStore β) (key : String) (now : Int) :
    Option β × CacheStore β :=
  match c key with
  | none => (none, c)
  | some entry =>
      if now - entry.timestamp > entry.ttl then (none, delete c key)
      else (entry.data, c)

/-- Model of `CacheManager.has`, defined exactly as in the source:
`this.get(key) !== null`, so it performs the same lazy-expiry side effect. -/
def has {β : Type} (c : CacheStore β) (key : String) (now : Int) :
    Bool × CacheStore β :=
  let r := get c key now
  (r.1.isSome, r.2)

end CacheManager

/-- Model of `generateCacheKey` (src/core/cache.ts): a truthy (non-empty)
`customKey` is returned outright; otherwise the key is `url:paramStr` where
`paramStr` is `JSON.stringify(params)` for truthy `params` and the empty string
for a falsy or missing `params`. -/
def generateCacheKey (url : String) (params : Option Json) (customKey : Option String) :
    String :=
  if strTruthy customKey then customKey.getD ""
  else url ++ ":" ++ (if jsTruthy params then Json.stringify (params.getD Json.null) else "")

/-- HTTP method of an engine instance, as passed to `useApi`. -/
inductive Method where
  | GET : Method
  | POST : Method
  | PUT : Method
  | PATCH : Method
  | DELETE : Method
deriving DecidableEq, Repr

/-- The `cache` option of `useApi` / the config of `createCachedFetch`: either a
boolean or an object carrying an optional TTL and an optional custom key. -/
inductive CacheCfg where
  | flag (b : Bool) : CacheCfg
  | custom (ttl : Option Int) (key : Option String) : CacheCfg
deriving Repr

/-- JavaScript truthiness of the `cache` option (an object is always truthy). -/
def CacheCfg.truthy : CacheCfg → Bool
  | CacheCfg.flag b => b
  | CacheCfg.custom _ _ => true

/-- The TTL `createCachedFetch` resolves from its config: the destructuring
default 300000 ms applies when no object config or no `ttl` field is given. -/
def CacheCfg.resolvedTtl : CacheCfg → Int
  | CacheCfg.flag _ => 300000
  | CacheCfg.custom t _ => t.getD 300000

/-- The custom key `createCachedFetch` resolves from its config. -/
def CacheCfg.resolvedKey : CacheCfg → Option String
  | CacheCfg.flag _ => none
  | CacheCfg.custom _ k => k

/-- The `retry` option of the hooks: a number (attempt cap) or a boolean. -/
inductive RetryCfg where
  | num (n : Nat) : RetryCfg
  | flag (b : Bool) : RetryCfg
deriving Repr

/-- Model of the `shouldRetry` computation in `executeRequest`
(react19/useApi.ts line 183): `typeof retry === 'number' ?
retryCountRef.current < retry : retry`. -/
def shouldRetryB : RetryCfg → Nat → Bool
  | RetryCfg.num n, count => decide (count < n)
  | RetryCfg.flag b, _ => b

/-- The message of the error the request layer substitutes for a fetch
`AbortError` (core/request.ts). -/
def abortMessage : String := "Request was aborted"

/-- Model of the full retry guard in `executeRequest`:
`shouldRetry && errorObj.message !== 'Request was aborted'`. -/
def willRetry (retry : RetryCfg) (count : Nat) (e : JsError) : Bool :=
  shouldRetryB retry count && !(e.message == abortMessage)

/-- Model of the abort-error translation in `makeRequest` (core/request.ts):
an error whose `name` is `AbortError` (fired by the combined timeout/caller
cancellation signal) is rethrown as `new Error('Request was aborted')`; every
other error propagates unchanged. -/
def translateFetchError (e : JsError) : JsError :=
  if e.name = "AbortError" then { name := "Error", message := abortMessage } else e

/-- A world of host-runtime interval timers: a fresh-id counter and the list of
live timers as (timer id, callback id, interval) triples. Callbacks are
identified by an opaque number. -/
structure TimerWorld where
  nextId : Nat
  active : List (Nat × Nat × Int)
deriving Repr, DecidableEq

/-- Model of `setInterval`: allocates a fresh timer and returns its id. -/
def setIntervalW (w : TimerWorld) (cb : Nat) (interval : Int) : Nat × TimerWorld :=
  (w.nextId, { nextId := w.nextId + 1, active := w.active ++ [(w.nextId, cb, interval)] })

/-- Model of `clearInterval`: removes the timer with the given id. -/
def clearIntervalW (w : TimerWorld) (id : Nat) : TimerWorld :=
  { w with active := w.active.filter (fun t => t.1 != id) }

/-- State of a `PollingManager` instance (src/core/polling.ts). -/
structure PollingManager where
  intervalId : Option Nat
  isRunning : Bool
deriving Repr, DecidableEq

/-- A freshly constructed `PollingManager`. -/
def PollingManager.init : PollingManager := { intervalId := none, isRunning := false }

/-- Model of `PollingManager.stop`: clears the interval if one is held (a held
`NodeJS.Timeout` object is always truthy) and resets the running flag. -/
def PollingManager.stop (pm : PollingManager) (w : TimerWorld) :
    PollingManager × TimerWorld :=
  match pm.intervalId with
  | some id => ({ intervalId := none, isRunning := false }, clearIntervalW w id)
  | none => ({ pm with isRunning := false }, w)

/-- Model of `PollingManager.start`: if the manager is already running it first
calls `this.stop()`, then sets the running flag and installs a fresh interval
timer whose id it records. -/
def PollingManager.start (pm : PollingManager) (w : TimerWorld) (cb : Nat) (interval : Int) :
    PollingManager × TimerWorld :=
  let s := if pm.isRunning then pm.stop w else (pm, w)
  let t := setIntervalW s.2 cb interval
  ({ intervalId := some t.1, isRunning := true }, t.2)

/-- Model of `PollingManager.isActive`. -/
def PollingManager.isActive (pm : PollingManager) : Bool := pm.isRunning

/-- Configuration of one `useApi` engine instance (react19/useApi.ts): the HTTP
method, the `cache` option, and the name under which the api function
contributes to the cache key (`apiFunction.name || 'api'`). -/
structure EngineCfg where
  method : Method
  cacheConfig : CacheCfg
  apiName : String

/-- Observable and internal state of one `useApi` engine instance: the
`data` / `loading` / `error` observables, the `retryCountRef` and `mountedRef`
refs, the abort flag of the current `AbortController`, the polling manager's
activity, plus the process-wide TTL cache and a counter of how many times the
underlying operation has been invoked. -/
structure Engine (β : Type) where
  cache : CacheStore β
  data : Option β
  loading : Bool
  error : Option JsError
  retryCount : Nat
  invocations : Nat
  mounted : Bool
  aborted : Bool
  pollingActive : Bool

/-- State of a freshly mounted engine instance over an empty cache. -/
def Engine.init (β : Type) : Engine β :=
  { cache := CacheStore.empty β, data := none, loading := false, error := none,
    retryCount := 0, invocations := 0, mounted := true, aborted := false,
    pollingActive := false }

/-- Model of the head of `executeRequest`: a fresh `AbortController` is
installed (`abortControllerRef.current = new AbortController()`), and the
transition sets `loading` true and clears `error`. -/
def startAttempt {β : Type} (st : Engine β) : Engine β :=
  { st with aborted := false, loading := true, error := none }

/-- Model of the success continuation of `executeRequest`: if the liveness flag
is still set, `data` receives the settled value, `loading` clears and the retry
counter resets; after teardown (`!mountedRef.current`) the continuation returns
without touching any state. The current abort flag is not consulted. -/
def settleSuccess {β : Type} (st : Engine β) (result : Option β) : Engine β :=
  if st.mounted then
    { st with data := result, loading := false, retryCount := 0 }
  else st

/-- Model of the terminal-failure continuation of `executeRequest` (the catch
branch once no retry is scheduled): if the liveness flag is still set, the
error observable is set and `loading` clears; `data` is never touched. -/
def settleFailure {β : Type} (st : Engine β) (e : JsError) : Engine β :=
  if st.mounted then { st with error := some e, loading := false }
  else st

/-- Model of the exposed `abort` callback (react19/useApi.ts lines 219-224):
it aborts the current controller and stops the polling manager. The liveness
flag `mountedRef` is not touched, and the controller's signal is never handed
to the operation. -/
def abortCall {β : Type} (st : Engine β) : Engine β :=
  { st with aborted := true, pollingActive := false }

/-- Model of the effect cleanup run on engine teardown (unmount): the liveness
flag is set false and `abort` is called. -/
def teardown {β : Type} (st : Engine β) : Engine β :=
  abortCall { st with mounted := false }

/-- Result of the fetch layer of one attempt: the settled value or error, the
cache afterwards, and the invocation counter afterwards. When the cache path is
taken (`useCache && cacheConfig && method === 'GET'`), this is one call to the
function built by `createCachedFetch` (react19/cache.ts): a non-null cached
value short-circuits; otherwise the operation runs and its result (possibly
null) is stored with the resolved TTL. Otherwise the operation runs directly. -/
def fetchStep {β : Type} (cfg : EngineCfg) (op : Nat → Except JsError (Option β))
    (useCache : Bool) (cache : CacheStore β) (invocations : Nat) (now : Int) :
    Except JsError (Option β) × CacheStore β × Nat :=
  if useCache && cfg.cacheConfig.truthy && (cfg.method == Method.GET) then
    let key := generateCacheKey cfg.apiName none cfg.cacheConfig.resolvedKey
    let r := CacheManager.get cache key now
    match r.1 with
    | some v => (Except.ok (some v), r.2, invocations)
    | none =>
        match op invocations with
        | Except.error e => (Except.error e, r.2, invocations + 1)
        | Except.ok v =>
            (Except.ok v, CacheManager.set r.2 key v now cfg.cacheConfig.resolvedTtl,
             invocations + 1)
  else
    (op invocations, cache, invocations + 1)

/-- Terminal outcome of one full `executeRequest` run. -/
inductive Outcome (β : Type) where
  | ok (v : Option β) : Outcome β
  | fail (e : JsError) : Outcome β
deriving Repr

/-- Model of one full `executeRequest(useCache)` run to its terminal settlement
(react19/useApi.ts lines 154-203), with the numeric retry option `retryN`: the
attempt body runs, and on failure the guard
`shouldRetry && errorObj.message !== 'Request was aborted'` (checked only while
the liveness flag holds) re-enters the request with `useCache = false` and an
incremented retry counter; otherwise the failure is terminal. All attempts of
the run are modelled at the single instant `now`. -/
def executeRequestLoop {β : Type} (cfg : EngineCfg) (op : Nat → Except JsError (Option β))
    (retryN : Nat) (useCache : Bool) (st : Engine β) (now : Int) : Engine β × Outcome β :=
  let st1 := startAttempt st
  let f := fetchStep cfg op useCache st1.cache st1.invocations now
  let st2 := { st1 with cache := f.2.1, invocations := f.2.2 }
  match f.1 with
  | Except.ok v => (settleSuccess st2 v, Outcome.ok v)
  | Except.error e =>
      if h : (st2.mounted && willRetry (RetryCfg.num retryN) st2.retryCount e) = true then
        executeRequestLoop cfg op retryN false
          { st2 with retryCount := st2.retryCount + 1 } now
      else (settleFailure st2 e, Outcome.fail e)
termination_by retryN - st.retryCount
decreasing_by
  simp only [willRetry, shouldRetryB, Bool.and_eq_true, Bool.not_eq_true',
    decide_eq_true_eq] at h
  have h1 : st1.retryCount = st.retryCount := rfl
  have h2 : (startAttempt st).retryCount = st.retryCount := rfl
  omega

/-- One trigger of the engine: the time at which it fires and whether it is a
cache-eligible execution (`executeRequest(true)`, as the initial effect and
poll ticks use) or a cache-bypassing one (`executeRequest(false)`, as `refetch`
uses). -/
structure RunSpec where
  useCache : Bool
  now : Int

/-- A sequence of engine triggers, each run to its terminal settlement,
collecting the outcome of every run. -/
def runSeq {β : Type} (cfg : EngineCfg) (op : Nat → Except JsError (Option β))
    (retryN : Nat) : List RunSpec → Engine β → Engine β × List (Outcome β)
  | [], st => (st, [])
  | r :: rs, st =>
      let x := executeRequestLoop cfg op retryN r.useCache st r.now
      let y := runSeq cfg op retryN rs x.1
      (y.1, x.2 :: y.2)

/-- The value produced by the most recent successful run in a list of
outcomes, starting from an initial value. -/
def foldData {β : Type} (init : Option β) : List (Outcome β) → Option β
  | [] => init
  | Outcome.ok v :: rest => foldData v rest
  | Outcome.fail _ :: rest => foldData init rest

/-- State of one `useApiOptimistic` hook instance: the `data` / `loading` /
`error` observables, the retry counter, `previousDataRef.current` (`none`
models its initial `undefined`), an invocation counter for the operation, the
liveness flag and the abort flag. -/
structure OptState (β : Type) where
  data : Option β
  loading : Bool
  error : Option JsError
  retryCount : Nat
  prevData : Option (Option β)
  invocations : Nat
  mounted : Bool
  aborted : Bool

/-- State of a freshly mounted `useApiOptimistic` instance. -/
def OptState.init (β : Type) : OptState β :=
  { data := none, loading := false, error := none, retryCount := 0,
    prevData := none, invocations := 0, mounted := true, aborted := false }

/-- Model of `mutate(input)` run to its terminal settlement for the React 18
variant of `useApiOptimistic` (hooks/react18/useApiOptimistic.ts): the previous
data is stored in `previousDataRef`, the optimistic value (computed from the
`data` captured by the callback closure) is applied, and on terminal failure
the rollback branch `rollbackOnError && previousDataRef.current !== undefined`
restores the stored previous data. A scheduled retry re-invokes the same
closure, so `dataClosure` stays fixed across retries. -/
def mutateR18Loop {β ι : Type} (op : Nat → Except JsError (Option β))
    (optimisticUpdate : Option (Option β → ι → Option β)) (rollbackOnError : Bool)
    (retryN : Nat) (input : ι) (dataClosure : Option β) (st : OptState β) : OptState β :=
  let st2 := { st with
    aborted := false
    loading := true
    error := none
    prevData := some dataClosure
    data := (match optimisticUpdate with
             | some f => f dataClosure input
             | none => st.data) }
  let st3 := { st2 with invocations := st2.invocations + 1 }
  match op st2.invocations with
  | Except.ok v =>
      if st3.mounted then { st3 with data := v, loading := false, retryCount := 0 }
      else st3
  | Except.error e =>
      if h : (st3.mounted && willRetry (RetryCfg.num retryN) st3.retryCount e) = true then
        mutateR18Loop op optimisticUpdate rollbackOnError retryN input dataClosure
          { st3 with retryCount := st3.retryCount + 1 }
      else if st3.mounted then
        let st4 := if rollbackOnError && st3.prevData.isSome then
            { st3 with data := st3.prevData.getD none }
          else st3
        { st4 with error := some e, loading := false }
      else st3
termination_by retryN - st.retryCount
decreasing_by
  simp only [willRetry, shouldRetryB, Bool.and_eq_true, Bool.not_eq_true',
    decide_eq_true_eq] at h
  omega

/-- Model of `mutate(input)` run to its terminal settlement for the base
`useApiOptimistic` (hooks/useApiOptimistic.ts) on the React 17/18 fallback path
(no `useOptimistic` available, so `setOptimisticData` is null): the optimistic
value is applied directly to `data`, and the rollback branch on terminal
failure is empty — the source keeps the current (optimistic) data, as its own
comment records. -/
def mutateFallbackLoop {β ι : Type} (op : Nat → Except JsError (Option β))
    (optimisticUpdate : Option (Option β → ι → Option β)) (rollbackOnError : Bool)
    (retryN : Nat) (input : ι) (dataClosure : Option β) (st : OptState β) : OptState β :=
  let st2 := { st with
    aborted := false
    loading := true
    error := none
    data := (match optimisticUpdate with
             | some f => f dataClosure input
             | none => st.data) }
  let st3 := { st2 with invocations := st2.invocations + 1 }
  match op st2.invocations with
  | Except.ok v =>
      if st3.mounted then { st3 with data := v, loading := false, retryCount := 0 }
      else st3
  | Except.error e =>
      if h : (st3.mounted && willRetry (RetryCfg.num retryN) st3.retryCount e) = true then
        mutateFallbackLoop op optimisticUpdate rollbackOnError retryN input dataClosure
          { st3 with retryCount := st3.retryCount + 1 }
      else if st3.mounted then { st3 with error := some e, loading := false }
      else st3
termination_by retryN - st.retryCount
decreasing_by
  simp only [willRetry, shouldRetryB, Bool.and_eq_true, Bool.not_eq_true',
    decide_eq_true_eq] at h
  omega

/-- Example cache store for witnesses: one entry at key `k` holding the value
37, stamped at time 0 with TTL 100. -/
def cacheExample : CacheStore Int :=
  CacheManager.set (CacheStore.empty Int) "k" (some 37) 0 100

/-- A GET engine configuration with cache enabled at a given TTL and no custom
key; `apiFunction.name` is taken to be `api`. -/
def getCfg (T : Int) : EngineCfg :=
  { method := Method.GET, cacheConfig := CacheCfg.custom (some T) none, apiName := "api" }

/-- A GET engine configuration with the plain boolean cache default. -/
def cfgGetDefault : EngineCfg :=
  { method := Method.GET, cacheConfig := CacheCfg.flag true, apiName := "api" }

/-- An operation that always resolves to the JavaScript value `null` (as the
request layer produces for an empty response body). -/
def opNull : Nat → Except JsError (Option Nat) := fun _ => Except.ok none

/-- An operation returning the distinct non-null value `i` on its i-th
invocation. -/
def opCount : Nat → Except JsError (Option Nat) := fun i => Except.ok (some i)

/-- An operation that always rejects with a generic error. -/
def opBoom : Nat → Except JsError (Option Nat) :=
  fun _ => Except.error { name := "Error", message := "boom" }

/-- An operation that always rejects with the cancellation error the request
layer produces on abort or timeout. -/
def opAborts : Nat → Except JsError (Option Nat) :=
  fun _ => Except.error { name := "Error", message := "Request was aborted" }

/-- The ten decimal digit characters. -/
def digitChars : List Char := ['0', '1', '2', '3', '4', '5', '6', '7', '8', '9']

/-- A character list whose head, if any, is not a decimal digit — the shape of
every valid continuation after a serialized number. -/
def noDigitHead (r : List Char) : Prop := ∀ c, r.head? = some c → c ∉ digitChars

/-- The continuations after which a serialized value can be unambiguously
delimited: numbers must not be followed by a digit; other values impose no
condition. -/
def tailOk : Json → List Char → Prop
  | Json.num _, r => noDigitHead r
  | _, _ => True

/-- Constructor index of a JSON value. -/
def ctorIdx : Json → Nat
  | Json.null => 0
  | Json.bool _ => 1
  | Json.num _ => 2
  | Json.str _ => 3
  | Json.arr _ => 4
  | Json.obj _ => 5

/-- Classification of the first character of a serialized JSON value; 9 marks
characters that never begin one. -/
def headClass (c : Char) : Nat :=
  if c = 'n' then 0
  else if c = 't' then 1
  else if c = 'f' then 1
  else if c = '-' then 2
  else if c ∈ digitChars then 2
  else if c = '"' then 3
  else if c = '[' then 4
  else if c = lbraceChar then 5
  else 9

/-- The cache key `useApi` derives for an api function named `api` with no
custom key and no params. -/
def apiKey : String := generateCacheKey "api" none none

/-- Expected engine state after a first successful GET trigger at time `t0`
with TTL `T` produced the non-null value `v`: the value is cached under the
engine's key and published to `data`. -/
def s1state (β : Type) (v : β) (t0 T : Int) : Engine β :=
  { cache := CacheManager.set (CacheStore.empty β) apiKey (some v) t0 T
    data := some v
    loading := false
    error := none
    retryCount := 0
    invocations := 1
    mounted := true
    aborted := false
    pollingActive := false }

/-- C7: `CacheManager.get` returns the stored value and leaves the store
untouched while the entry's age `now - timestamp` is at most its TTL, and
exactly when the age strictly exceeds the TTL it deletes the entry (lazy
expiry on read — the only removal a read ever performs) and returns the miss
value; `CacheManager.has` is precisely `get(key) !== null`, performing the
same lazy-expiry side effect on the store. -/
theorem cacheManager_lazy_expiry {β : Type} (c : CacheStore β) (key : String)
    (e : CacheEntry β) (now : Int) (hk : c key = some e) :
    (now - e.timestamp ≤ e.ttl → CacheManager.get c key now = (e.data, c)) ∧
    (e.ttl < now - e.timestamp →
      CacheManager.get c key now = (none, CacheManager.delete c key)) ∧
    CacheManager.has c key now =
      ((CacheManager.get c key now).1.isSome, (CacheManager.get c key now).2) := by
  have hform : CacheManager.get c key now =
      if e.ttl < now - e.timestamp then (none, CacheManager.delete c key)
      else (e.data, c) := by
    unfold CacheManager.get
    rw [hk]
  refine ⟨fun hle => ?_, fun hlt => ?_, rfl⟩
  · rw [hform, if_neg (by omega)]
  · rw [hform, if_pos hlt]

/-- Witness for C7 at a concrete store: the entry `(37, timestamp 0, ttl 100)`
is served at time 60, and at time 200 it is lazily deleted and missed, with
`has` agreeing with `get`. -/
theorem cacheManager_lazy_expiry_witness :
    CacheManager.get cacheExample "k" 60 = (some 37, cacheExample) ∧
    CacheManager.get cacheExample "k" 200 = (none, CacheManager.delete cacheExample "k") ∧
    CacheManager.has cacheExample "k" 200 =
      ((CacheManager.get cacheExample "k" 200).1.isSome,
       (CacheManager.get cacheExample "k" 200).2) :=
  ⟨(cacheManager_lazy_expiry cacheExample "k" ⟨some 37, 0, 100⟩ 60 rfl).1 (by decide),
   (cacheManager_lazy_expiry cacheExample "k" ⟨some 37, 0, 100⟩ 200 rfl).2.1 (by decide),
   (cacheManager_lazy_expiry cacheExample "k" ⟨some 37, 0, 100⟩ 200 rfl).2.2⟩

/-- C10: an empty-string custom key is falsy in the `if (customKey)` check, so
`generateCacheKey` ignores it entirely and returns the key derived from the
url and params, exactly as if no custom key had been supplied. -/
theorem generateCacheKey_ignores_empty_override (url : String) (params : Option Json) :
    generateCacheKey url params (some "") = generateCacheKey url params none := rfl

/-- C8 counterexample: the claim fails as stated. The structurally different
params `0` and `false` are both falsy, so both collapse to the no-params key
and collide; and a supplied empty-string override key does not win — the
returned key is the derived one, not the override. -/
theorem generateCacheKey_claim_counterexample :
    generateCacheKey "api" (some (Json.num 0)) none =
      generateCacheKey "api" (some (Json.bool false)) none ∧
    Json.num 0 ≠ Json.bool false ∧
    generateCacheKey "api" none (some "") ≠ "" :=
  ⟨rfl, fun h => Json.noConfusion h, by decide⟩

/-- C6: evaluation of `PollingManager.start` at the failing input. Starting an
already-running manager is not a no-op: the second `start` clears the original
timer (id 0) and installs a fresh timer (id 1) in its place, so the existing
timer does not keep running unchanged — though at most one timer exists
afterwards. The repository's own polling test comments that the second start
"should be ignored". -/
theorem pollingManager_second_start_replaces_timer :
    (PollingManager.start PollingManager.init ⟨0, []⟩ 5 1000).1.intervalId = some 0 ∧
    (PollingManager.start PollingManager.init ⟨0, []⟩ 5 1000).2.active = [(0, 5, 1000)] ∧
    (PollingManager.start (PollingManager.start PollingManager.init ⟨0, []⟩ 5 1000).1
      (PollingManager.start PollingManager.init ⟨0, []⟩ 5 1000).2 5 1000).1.intervalId
        = some 1 ∧
    (PollingManager.start (PollingManager.start PollingManager.init ⟨0, []⟩ 5 1000).1
      (PollingManager.start PollingManager.init ⟨0, []⟩ 5 1000).2 5 1000).2.active
        = [(1, 5, 1000)] := by
  decide

/-- C5: the retry guard never fires for the cancellation error. An error whose
`name` is `AbortError` (the combined timeout / caller cancellation signal
firing) is translated by the request layer into the `Request was aborted`
error, and `willRetry` — the exact guard `executeRequest` consults — rejects
any error carrying that message under every retry configuration and every
retry count: cancellation is always a terminal outcome for the attempt. -/
theorem abortError_never_retried (r : RetryCfg) (count : Nat) (e : JsError) :
    (e.name = "AbortError" → willRetry r count (translateFetchError e) = false) ∧
    (e.message = abortMessage → willRetry r count e = false) := by
  constructor
  · intro hn
    simp [willRetry, translateFetchError, hn]
  · intro hm
    simp [willRetry, hm]

/-- Witness for C5: a concrete `AbortError` is translated and then refused a
retry even under the infinite-retry configuration. -/
theorem abortError_never_retried_witness :
    (JsError.mk "AbortError" "timed out").name = "AbortError" ∧
    willRetry (RetryCfg.flag true) 0
      (translateFetchError (JsError.mk "AbortError" "timed out")) = false :=
  ⟨rfl, (abortError_never_retried (RetryCfg.flag true) 0
    (JsError.mk "AbortError" "timed out")).1 rfl⟩

/-- C4 counterexample: the claim fails as stated. With a fresh engine, start an
attempt, call `abort()`, then let the attempt's promise resolve: `data` and
`loading` both change. The exposed `abort` only aborts a controller whose
signal is never handed to the operation and does not clear the liveness flag,
so the late settlement still updates the observables. -/
theorem abort_does_not_suppress_late_update :
    (settleSuccess (abortCall (startAttempt (Engine.init Nat))) (some 7)).data = some 7 ∧
    (abortCall (startAttempt (Engine.init Nat))).data = none ∧
    (settleSuccess (abortCall (startAttempt (Engine.init Nat))) (some 7)).loading = false ∧
    (abortCall (startAttempt (Engine.init Nat))).loading = true := by
  refine ⟨rfl, rfl, rfl, rfl⟩

/-- C4 amended: it is engine teardown — the effect cleanup on unmount, which
clears the liveness flag `mountedRef` and then calls `abort` — after which a
late settlement of a started attempt's promise, whether resolution or
rejection, leaves `data`, `error` and `loading` all unchanged; a bare `abort()`
call does not suppress the update. -/
theorem teardown_suppresses_late_update {β : Type} (st : Engine β) (v : Option β)
    (e : JsError) :
    settleSuccess (teardown (startAttempt st)) v = teardown (startAttempt st) ∧
    settleFailure (teardown (startAttempt st)) e = teardown (startAttempt st) :=
  ⟨rfl, rfl⟩

/-- C3: evaluation of both `useApiOptimistic.mutate` variants at the failing
input (data initially null, `optimisticUpdate` mapping input 42 to the value
42, `rollbackOnError = true`, operation always failing, no retries). The base
hook's React 17/18 fallback keeps the optimistic value in `data` — its own
comment admits the needed revert is impossible without the previous state —
while the react18 variant, which stores `previousDataRef`, rolls `data` back
to the pre-mutation value as the claim demands. -/
theorem useApiOptimistic_fallback_skips_rollback :
    (mutateFallbackLoop opBoom (some (fun _ n => some n)) true 0 42 none
      (OptState.init Nat)).data = some 42 ∧
    (mutateFallbackLoop opBoom (some (fun _ n => some n)) true 0 42 none
      (OptState.init Nat)).error = some (JsError.mk "Error" "boom") ∧
    (mutateR18Loop opBoom (some (fun _ n => some n)) true 0 42 none
      (OptState.init Nat)).data = none ∧
    (mutateR18Loop opBoom (some (fun _ n => some n)) true 0 42 none
      (OptState.init Nat)).error = some (JsError.mk "Error" "boom") := by
  refine ⟨?_, ?_, ?_, ?_⟩ <;>
    simp [mutateFallbackLoop, mutateR18Loop, OptState.init, opBoom, willRetry,
      shouldRetryB, abortMessage]

/-- C1 counterexample: the claim fails as stated for an operation whose
successful result is the JavaScript value `null` (as the request layer yields
for an empty response body): the stored `null` is indistinguishable from a
cache miss on read, so a second trigger well within the TTL invokes the
operation again — two invocations instead of the claimed one. -/
theorem cache_hit_claim_counterexample :
    ((1 : Int) - 0 ≤ cfgGetDefault.cacheConfig.resolvedTtl) ∧
    ((executeRequestLoop cfgGetDefault opNull 0 true
        (executeRequestLoop cfgGetDefault opNull 0 true (Engine.init Nat) 0).1 1).1).invocations
      = 2 := by
  constructor
  · decide
  · simp [executeRequestLoop, fetchStep, startAttempt, settleSuccess, settleFailure,
      CacheManager.get, CacheManager.set, CacheManager.delete, generateCacheKey,
      Engine.init, CacheStore.empty, cfgGetDefault, opNull, CacheCfg.truthy,
      CacheCfg.resolvedKey, CacheCfg.resolvedTtl, strTruthy, jsTruthy]

/-- C2 counterexample: the claim fails as stated for an operation that fails
on every invocation with the cancellation error (as a request that always
times out does): with `retry = 1` the operation is invoked exactly once, not
`1 + 1` times, because the cancellation error is never retried. -/
theorem retry_bound_claim_counterexample :
    ((executeRequestLoop cfgGetDefault opAborts 1 false (Engine.init Nat) 0).1).invocations
      = 1 ∧
    ¬ ((executeRequestLoop cfgGetDefault opAborts 1 false (Engine.init Nat) 0).1).invocations
      = 1 + 1 := by
  have h : ((executeRequestLoop cfgGetDefault opAborts 1 false (Engine.init Nat) 0).1).invocations
      = 1 := by
    simp [executeRequestLoop, fetchStep, startAttempt, settleSuccess, settleFailure,
      Engine.init, CacheStore.empty, cfgGetDefault, opAborts, willRetry, shouldRetryB,
      abortMessage, CacheCfg.truthy]
  exact ⟨h, by omega⟩

/-- Unfolding lemma: one `executeRequestLoop` step whose fetch layer resolves
successfully settles the run with that value. -/
theorem loop_step_ok {β : Type} (cfg : EngineCfg) (op : Nat → Except JsError (Option β))
    (retryN : Nat) (useCache : Bool) (st : Engine β) (now : Int)
    (v : Option β) (c2 : CacheStore β) (i2 : Nat)
    (hf : fetchStep cfg op useCache st.cache st.invocations now = (Except.ok v, c2, i2)) :
    executeRequestLoop cfg op retryN useCache st now =
      (settleSuccess { st with
        aborted := false
        loading := true
        error := none
        cache := c2
        invocations := i2 } v, Outcome.ok v) := by
  rw [executeRequestLoop]
  simp only [startAttempt, hf]

/-- Unfolding lemma: one `executeRequestLoop` step whose fetch layer rejects
either re-enters the loop (when the retry guard fires while the engine is
live) or settles the failure terminally. -/
theorem loop_step_fail {β : Type} (cfg : EngineCfg) (op : Nat → Except JsError (Option β))
    (retryN : Nat) (useCache : Bool) (st : Engine β) (now : Int)
    (e : JsError) (c2 : CacheStore β) (i2 : Nat)
    (hf : fetchStep cfg op useCache st.cache st.invocations now = (Except.error e, c2, i2)) :
    executeRequestLoop cfg op retryN useCache st now =
      if (st.mounted && willRetry (RetryCfg.num retryN) st.retryCount e) = true then
        executeRequestLoop cfg op retryN false
          { st with
            aborted := false
            loading := true
            error := none
            cache := c2
            invocations := i2
            retryCount := st.retryCount + 1 } now
      else
        (settleFailure { st with
          aborted := false
          loading := true
          error := none
          cache := c2
          invocations := i2 } e, Outcome.fail e) := by
  rw [executeRequestLoop]
  simp only [startAttempt, hf]
  split <;> rfl

/-- When the cache holds nothing under the engine's key and the operation
rejects, the fetch layer propagates the rejection, leaves the cache untouched
and counts one invocation — on both the cached and the plain path. -/
theorem fetchStep_miss_fail {β : Type} (cfg : EngineCfg) (op : Nat → Except JsError (Option β))
    (useCache : Bool) (c : CacheStore β) (inv : Nat) (now : Int)
    (hmiss : c (generateCacheKey cfg.apiName none cfg.cacheConfig.resolvedKey) = none)
    (e : JsError) (he : op inv = Except.error e) :
    fetchStep cfg op useCache c inv now = (Except.error e, c, inv + 1) := by
  have hget : CacheManager.get c
      (generateCacheKey cfg.apiName none cfg.cacheConfig.resolvedKey) now = (none, c) := by
    unfold CacheManager.get
    rw [hmiss]
  unfold fetchStep
  split
  · simp only [hget, he]
  · rw [he]

/-- An always-failing, never-cancelled operation drives `executeRequestLoop`
through all remaining retries: from any live state whose cache misses the
engine's key and has `fuel = retryN - retryCount` retries left, the loop
performs `fuel + 1` further invocations, sets `error` to the last failure,
clears `loading`, and never touches `data`. -/
theorem loop_allFail {β : Type} (cfg : EngineCfg) (op : Nat → Except JsError (Option β))
    (retryN : Nat)
    (hfail : ∀ i, ∃ e, op i = Except.error e ∧ e.message ≠ abortMessage) :
    ∀ (fuel : Nat) (useCache : Bool) (st : Engine β) (now : Int),
      st.mounted = true →
      st.cache (generateCacheKey cfg.apiName none cfg.cacheConfig.resolvedKey) = none →
      retryN - st.retryCount = fuel →
      ∃ e, op (st.invocations + fuel) = Except.error e ∧
        (executeRequestLoop cfg op retryN useCache st now).1.invocations
          = st.invocations + fuel + 1 ∧
        (executeRequestLoop cfg op retryN useCache st now).1.error = some e ∧
        (executeRequestLoop cfg op retryN useCache st now).1.loading = false ∧
        (executeRequestLoop cfg op retryN useCache st now).1.data = st.data := by
  intro fuel
  induction fuel with
  | zero =>
      intro useCache st now hm hmiss hfu
      obtain ⟨e, he, hmsg⟩ := hfail st.invocations
      have hstep := loop_step_fail cfg op retryN useCache st now e st.cache (st.invocations + 1)
        (fetchStep_miss_fail cfg op useCache st.cache st.invocations now hmiss e he)
      have hg : ¬ ((st.mounted && willRetry (RetryCfg.num retryN) st.retryCount e) = true) := by
        simp only [willRetry, shouldRetryB, Bool.and_eq_true, decide_eq_true_eq]
        rintro ⟨-, hlt, -⟩
        omega
      rw [hstep, if_neg hg]
      exact ⟨e, by simpa using he, by simp [settleFailure, hm],
        by simp [settleFailure, hm], by simp [settleFailure, hm], by simp [settleFailure, hm]⟩
  | succ n ih =>
      intro useCache st now hm hmiss hfu
      obtain ⟨e, he, hmsg⟩ := hfail st.invocations
      have hstep := loop_step_fail cfg op retryN useCache st now e st.cache (st.invocations + 1)
        (fetchStep_miss_fail cfg op useCache st.cache st.invocations now hmiss e he)
      have hg : (st.mounted && willRetry (RetryCfg.num retryN) st.retryCount e) = true := by
        simp only [willRetry, shouldRetryB, hm, Bool.true_and, Bool.and_eq_true,
          decide_eq_true_eq, Bool.not_eq_true', beq_eq_false_iff_ne, ne_eq]
        exact ⟨by omega, hmsg⟩
      rw [hstep, if_pos hg]
      obtain ⟨e1, he1, hinv, herr, hload, hdata⟩ := ih false
        { st with
          aborted := false
          loading := true
          error := none
          cache := st.cache
          invocations := st.invocations + 1
          retryCount := st.retryCount + 1 }
        now (by simpa using hm) (by simpa using hmiss) (by simp; omega)
      refine ⟨e1, ?_, ?_, ?_, ?_, ?_⟩
      · rw [show st.invocations + (n + 1) = st.invocations + 1 + n by omega]
        simpa using he1
      · rw [hinv]
        simp
        omega
      · exact herr
      · exact hload
      · rw [hdata]

/-- C2 amended: an engine with numeric `retry = N`, run from a fresh instance
against an operation that fails on every invocation with a non-cancellation
error, invokes the operation exactly `N + 1` times (so exactly once when
`N = 0`), sets the final observable `error` to the last failure, and ends with
`loading` false. (An operation that always fails with the cancellation error
`Request was aborted` is invoked exactly once regardless of `N`, per the
retry guard.) -/
theorem retry_bound {β : Type} (cfg : EngineCfg) (op : Nat → Except JsError (Option β))
    (retryN : Nat) (useCache : Bool) (now : Int)
    (hfail : ∀ i, ∃ e, op i = Except.error e ∧ e.message ≠ abortMessage) :
    ∃ e, op retryN = Except.error e ∧
      (executeRequestLoop cfg op retryN useCache (Engine.init β) now).1.invocations
        = retryN + 1 ∧
      (executeRequestLoop cfg op retryN useCache (Engine.init β) now).1.error = some e ∧
      (executeRequestLoop cfg op retryN useCache (Engine.init β) now).1.loading = false := by
  obtain ⟨e, he, hinv, herr, hload, hdata⟩ := loop_allFail cfg op retryN hfail retryN useCache
    (Engine.init β) now rfl rfl rfl
  exact ⟨e, by simpa [Engine.init] using he, by simpa [Engine.init] using hinv, herr, hload⟩

/-- Witness for C2 at a concrete engine: `retry = 2` with an always-failing
operation gives exactly 3 invocations, the error observable set, loading
cleared. -/
theorem retry_bound_witness :
    ∃ e, opBoom 2 = Except.error e ∧
      (executeRequestLoop cfgGetDefault opBoom 2 false (Engine.init Nat) 0).1.invocations
        = 2 + 1 ∧
      (executeRequestLoop cfgGetDefault opBoom 2 false (Engine.init Nat) 0).1.error = some e ∧
      (executeRequestLoop cfgGetDefault opBoom 2 false (Engine.init Nat) 0).1.loading
        = false :=
  retry_bound cfgGetDefault opBoom 2 false 0
    (fun i => ⟨JsError.mk "Error" "boom", rfl, by decide⟩)

/-- Any terminal run of `executeRequestLoop` from a live state keeps the
engine live, and its final `data` is the run's outcome value on success and
exactly the pre-run `data` on terminal failure. -/
theorem loop_data_outcome {β : Type} (cfg : EngineCfg) (op : Nat → Except JsError (Option β))
    (retryN : Nat) :
    ∀ (fuel : Nat) (useCache : Bool) (st : Engine β) (now : Int),
      st.mounted = true → retryN - st.retryCount = fuel →
      (executeRequestLoop cfg op retryN useCache st now).1.mounted = true ∧
      (executeRequestLoop cfg op retryN useCache st now).1.data =
        (match (executeRequestLoop cfg op retryN useCache st now).2 with
         | Outcome.ok v => v
         | Outcome.fail _ => st.data) := by
  intro fuel
  induction fuel with
  | zero =>
      intro useCache st now hm hfu
      rcases hres : fetchStep cfg op useCache st.cache st.invocations now with ⟨r, c2, i2⟩
      cases r with
      | ok v =>
          rw [loop_step_ok cfg op retryN useCache st now v c2 i2 hres]
          exact ⟨by simp [settleSuccess, hm], by simp [settleSuccess, hm]⟩
      | error e =>
          rw [loop_step_fail cfg op retryN useCache st now e c2 i2 hres]
          have hg : ¬ ((st.mounted && willRetry (RetryCfg.num retryN) st.retryCount e)
              = true) := by
            simp only [willRetry, shouldRetryB, Bool.and_eq_true, decide_eq_true_eq]
            rintro ⟨-, hlt, -⟩
            omega
          rw [if_neg hg]
          exact ⟨by simp [settleFailure, hm], by simp [settleFailure, hm]⟩
  | succ n ih =>
      intro useCache st now hm hfu
      rcases hres : fetchStep cfg op useCache st.cache st.invocations now with ⟨r, c2, i2⟩
      cases r with
      | ok v =>
          rw [loop_step_ok cfg op retryN useCache st now v c2 i2 hres]
          exact ⟨by simp [settleSuccess, hm], by simp [settleSuccess, hm]⟩
      | error e =>
          rw [loop_step_fail cfg op retryN useCache st now e c2 i2 hres]
          rcases hg : (st.mounted && willRetry (RetryCfg.num retryN) st.retryCount e) with _ | _
          · rw [if_neg (by simp)]
            exact ⟨by simp [settleFailure, hm], by simp [settleFailure, hm]⟩
          · rw [if_pos rfl]
            have hlt : st.retryCount < retryN := by
              simp only [willRetry, shouldRetryB, Bool.and_eq_true, decide_eq_true_eq] at hg
              exact hg.2.1
            have := ih false
              { st with
                aborted := false
                loading := true
                error := none
                cache := c2
                invocations := i2
                retryCount := st.retryCount + 1 }
              now (by simpa using hm) (by simp; omega)
            simpa using this

/-- C9: over any sequence of triggers of one live engine instance, the final
observable `data` equals the value produced by the most recent successful run
(the initial `data` — null for a fresh engine — if none succeeded): failed
attempts never clear `data`, so `error` and stale-but-valid data may coexist. -/
theorem data_never_cleared {β : Type} (cfg : EngineCfg) (op : Nat → Except JsError (Option β))
    (retryN : Nat) (runs : List RunSpec) (st : Engine β) (hm : st.mounted = true) :
    ((runSeq cfg op retryN runs st).1).data
      = foldData st.data ((runSeq cfg op retryN runs st).2) := by
  induction runs generalizing st with
  | nil => rfl
  | cons r rs ih =>
      obtain ⟨hm', hdata⟩ := loop_data_outcome cfg op retryN (retryN - st.retryCount)
        r.useCache st r.now hm rfl
      simp only [runSeq]
      rcases hx : executeRequestLoop cfg op retryN r.useCache st r.now with ⟨st1, o⟩
      rw [hx] at hm' hdata
      simp only at hm' hdata
      cases o with
      | ok v =>
          simp only [foldData]
          rw [ih st1 hm', hdata]
      | fail e =>
          simp only [foldData]
          rw [ih st1 hm', hdata]

/-- Witness for C9 at a concrete engine: two failing triggers from a fresh
instance leave `data` at the fold of the outcomes over the initial null. -/
theorem data_never_cleared_witness :
    ((runSeq cfgGetDefault opBoom 0 [⟨true, 0⟩, ⟨false, 1⟩] (Engine.init Nat)).1).data
      = foldData none
          ((runSeq cfgGetDefault opBoom 0 [⟨true, 0⟩, ⟨false, 1⟩] (Engine.init Nat)).2) :=
  data_never_cleared cfgGetDefault opBoom 0 [⟨true, 0⟩, ⟨false, 1⟩] (Engine.init Nat) rfl

/-- A `set` followed by a lookup of the same key yields the freshly stamped
entry. -/
theorem cacheSet_self {β : Type} (c : CacheStore β) (key : String) (d : Option β)
    (now ttl : Int) : CacheManager.set c key d now ttl key = some ⟨d, now, ttl⟩ := by
  unfold CacheManager.set
  simp

/-- On the cached path, a fresh (age at most TTL) entry with a non-null stored
value short-circuits the fetch layer: the cached value is returned, the
operation is not invoked, and the store is untouched. -/
theorem fetchStep_hit {β : Type} (cfg : EngineCfg) (op : Nat → Except JsError (Option β))
    (c : CacheStore β) (inv : Nat) (now : Int)
    (hg : (true && cfg.cacheConfig.truthy && (cfg.method == Method.GET)) = true)
    (entry : CacheEntry β)
    (hk : c (generateCacheKey cfg.apiName none cfg.cacheConfig.resolvedKey) = some entry)
    (hfresh : now - entry.timestamp ≤ entry.ttl)
    (v : β) (hdata : entry.data = some v) :
    fetchStep cfg op true c inv now = (Except.ok (some v), c, inv) := by
  have hform : CacheManager.get c
      (generateCacheKey cfg.apiName none cfg.cacheConfig.resolvedKey) now
      = if entry.ttl < now - entry.timestamp
        then (none, CacheManager.delete c
          (generateCacheKey cfg.apiName none cfg.cacheConfig.resolvedKey))
        else (entry.data, c) := by
    unfold CacheManager.get
    rw [hk]
  have hget : CacheManager.get c
      (generateCacheKey cfg.apiName none cfg.cacheConfig.resolvedKey) now = (some v, c) := by
    rw [hform, if_neg (by omega), hdata]
  unfold fetchStep
  rw [if_pos hg]
  simp only [hget]

/-- On the cached path, a missing entry lets the operation run and stores its
result (even a null one) under the engine's key with the resolved TTL. -/
theorem fetchStep_miss_ok {β : Type} (cfg : EngineCfg) (op : Nat → Except JsError (Option β))
    (c : CacheStore β) (inv : Nat) (now : Int)
    (hg : (true && cfg.cacheConfig.truthy && (cfg.method == Method.GET)) = true)
    (hk : c (generateCacheKey cfg.apiName none cfg.cacheConfig.resolvedKey) = none)
    (v : Option β) (he : op inv = Except.ok v) :
    fetchStep cfg op true c inv now =
      (Except.ok v, CacheManager.set c
        (generateCacheKey cfg.apiName none cfg.cacheConfig.resolvedKey) v now
        cfg.cacheConfig.resolvedTtl, inv + 1) := by
  have hget : CacheManager.get c
      (generateCacheKey cfg.apiName none cfg.cacheConfig.resolvedKey) now = (none, c) := by
    unfold CacheManager.get
    rw [hk]
  unfold fetchStep
  rw [if_pos hg]
  simp only [hget, he]

/-- On the cached path, an entry whose age strictly exceeds its TTL is lazily
deleted, the operation runs again, and its result is stored afresh. -/
theorem fetchStep_expired_ok {β : Type} (cfg : EngineCfg) (op : Nat → Except JsError (Option β))
    (c : CacheStore β) (inv : Nat) (now : Int)
    (hg : (true && cfg.cacheConfig.truthy && (cfg.method == Method.GET)) = true)
    (entry : CacheEntry β)
    (hk : c (generateCacheKey cfg.apiName none cfg.cacheConfig.resolvedKey) = some entry)
    (hstale : entry.ttl < now - entry.timestamp)
    (v : Option β) (he : op inv = Except.ok v) :
    fetchStep cfg op true c inv now =
      (Except.ok v, CacheManager.set (CacheManager.delete c
        (generateCacheKey cfg.apiName none cfg.cacheConfig.resolvedKey))
        (generateCacheKey cfg.apiName none cfg.cacheConfig.resolvedKey) v now
        cfg.cacheConfig.resolvedTtl, inv + 1) := by
  have hform : CacheManager.get c
      (generateCacheKey cfg.apiName none cfg.cacheConfig.resolvedKey) now
      = if entry.ttl < now - entry.timestamp
        then (none, CacheManager.delete c
          (generateCacheKey cfg.apiName none cfg.cacheConfig.resolvedKey))
        else (entry.data, c) := by
    unfold CacheManager.get
    rw [hk]
  have hget : CacheManager.get c
      (generateCacheKey cfg.apiName none cfg.cacheConfig.resolvedKey) now
      = (none, CacheManager.delete c
        (generateCacheKey cfg.apiName none cfg.cacheConfig.resolvedKey)) := by
    rw [hform, if_pos hstale]
  unfold fetchStep
  rw [if_pos hg]
  simp only [hget, he]

/-- C1 amended: for a GET engine with caching enabled at TTL `T` and an
operation whose successful result is non-null, the first trigger at `t0`
invokes the operation once and reaches the cached state; a second trigger
within `T` of the stored result leaves that state unchanged — it is served
from the cache and does not invoke the operation; and a trigger more than `T`
after the result was stored invokes the operation again (a second
invocation). -/
theorem cache_hit_avoids_reexecution {β : Type} (T : Int)
    (op : Nat → Except JsError (Option β)) (v : β) (w : Option β) (retryN : Nat)
    (t0 t1 t2 : Int) (h0 : op 0 = Except.ok (some v)) (h1 : op 1 = Except.ok w)
    (hwithin : t1 - t0 ≤ T) (hafter : T < t2 - t0) :
    (executeRequestLoop (getCfg T) op retryN true (Engine.init β) t0).1 = s1state β v t0 T ∧
    (s1state β v t0 T).invocations = 1 ∧
    (s1state β v t0 T).data = some v ∧
    (executeRequestLoop (getCfg T) op retryN true (s1state β v t0 T) t1).1
      = s1state β v t0 T ∧
    (executeRequestLoop (getCfg T) op retryN true (s1state β v t0 T) t2).1.invocations = 2 ∧
    (executeRequestLoop (getCfg T) op retryN true (s1state β v t0 T) t2).1.data = w := by
  have hf1 : fetchStep (getCfg T) op true (Engine.init β).cache (Engine.init β).invocations t0
      = (Except.ok (some v), CacheManager.set (CacheStore.empty β) apiKey (some v) t0 T, 1) :=
    fetchStep_miss_ok (getCfg T) op (Engine.init β).cache (Engine.init β).invocations t0
      rfl rfl (some v) h0
  have hk1 : (s1state β v t0 T).cache apiKey = some ⟨some v, t0, T⟩ :=
    cacheSet_self (CacheStore.empty β) apiKey (some v) t0 T
  have hf2 : fetchStep (getCfg T) op true (s1state β v t0 T).cache
        (s1state β v t0 T).invocations t1
      = (Except.ok (some v), (s1state β v t0 T).cache, (s1state β v t0 T).invocations) :=
    fetchStep_hit (getCfg T) op (s1state β v t0 T).cache (s1state β v t0 T).invocations t1
      rfl ⟨some v, t0, T⟩ hk1 hwithin v rfl
  have hf3 : fetchStep (getCfg T) op true (s1state β v t0 T).cache
        (s1state β v t0 T).invocations t2
      = (Except.ok w, CacheManager.set (CacheManager.delete (s1state β v t0 T).cache apiKey)
          apiKey w t2 T, 2) :=
    fetchStep_expired_ok (getCfg T) op (s1state β v t0 T).cache (s1state β v t0 T).invocations
      t2 rfl ⟨some v, t0, T⟩ hk1 hafter w h1
  refine ⟨?_, rfl, rfl, ?_, ?_, ?_⟩
  · rw [loop_step_ok (getCfg T) op retryN true (Engine.init β) t0 (some v) _ _ hf1]
    rfl
  · rw [loop_step_ok (getCfg T) op retryN true (s1state β v t0 T) t1 (some v) _ _ hf2]
    rfl
  · rw [loop_step_ok (getCfg T) op retryN true (s1state β v t0 T) t2 w _ _ hf3]
    rfl
  · rw [loop_step_ok (getCfg T) op retryN true (s1state β v t0 T) t2 w _ _ hf3]
    rfl

/-- Witness for C1: TTL 100, triggers at times 0, 50 and 150; the second
trigger is a cache hit (still one invocation), the third re-invokes. -/
theorem cache_hit_avoids_reexecution_witness :
    (executeRequestLoop (getCfg 100) opCount 0 true (Engine.init Nat) 0).1
      = s1state Nat 0 0 100 ∧
    (s1state Nat 0 0 100).invocations = 1 ∧
    (s1state Nat 0 0 100).data = some 0 ∧
    (executeRequestLoop (getCfg 100) opCount 0 true (s1state Nat 0 0 100) 50).1
      = s1state Nat 0 0 100 ∧
    (executeRequestLoop (getCfg 100) opCount 0 true (s1state Nat 0 0 100) 150).1.invocations
      = 2 ∧
    (executeRequestLoop (getCfg 100) opCount 0 true (s1state Nat 0 0 100) 150).1.data
      = some 1 :=
  cache_hit_avoids_reexecution 100 opCount 0 (some 1) 0 0 50 150 rfl rfl
    (by decide) (by decide)

/-- Unfolding equation for `natCharsAux` with a plain conditional. -/
theorem natCharsAux_eq (n : Nat) (acc : List Char) :
    natCharsAux n acc = if n / 10 = 0 then Char.ofNat (48 + n % 10) :: acc
      else natCharsAux (n / 10) (Char.ofNat (48 + n % 10) :: acc) := by
  rw [natCharsAux]
  split <;> rfl

/-- The accumulator of `natCharsAux` is a plain suffix. -/
theorem natCharsAux_append (n : Nat) : ∀ acc, natCharsAux n acc = natCharsAux n [] ++ acc := by
  induction n using Nat.strong_induction_on with
  | _ n ih =>
    intro acc
    by_cases h : n / 10 = 0
    · rw [natCharsAux_eq, if_pos h, natCharsAux_eq, if_pos h]
      rfl
    · have hlt : n / 10 < n :=
        Nat.div_lt_self (Nat.pos_of_ne_zero (fun h0 => h (by rw [h0]))) (by decide)
      rw [natCharsAux_eq, if_neg h, natCharsAux_eq n [], if_neg h]
      rw [ih (n / 10) hlt (Char.ofNat (48 + n % 10) :: acc),
        ih (n / 10) hlt (Char.ofNat (48 + n % 10) :: [])]
      simp

/-- Structural equation for `natChars`: most significant digits first. -/
theorem natChars_eq (n : Nat) :
    natChars n = if n / 10 = 0 then [Char.ofNat (48 + n % 10)]
      else natChars (n / 10) ++ [Char.ofNat (48 + n % 10)] := by
  unfold natChars
  by_cases h : n / 10 = 0
  · rw [natCharsAux_eq, if_pos h, if_pos h]
  · rw [natCharsAux_eq, if_neg h, if_neg h, natCharsAux_append]

/-- Digit characters from digit values. -/
theorem digit_char_mem (k : Nat) (h : k < 10) : Char.ofNat (48 + k) ∈ digitChars := by
  interval_cases k <;> decide

/-- Digit characters are distinct for distinct digit values. -/
theorem digit_char_inj (a b : Nat) (ha : a < 10) (hb : b < 10)
    (h : Char.ofNat (48 + a) = Char.ofNat (48 + b)) : a = b := by
  interval_cases a <;> interval_cases b <;> first
    | rfl
    | exact absurd h (by decide)

/-- Every character of `natChars` is a decimal digit. -/
theorem natChars_digits (n : Nat) : ∀ c ∈ natChars n, c ∈ digitChars := by
  induction n using Nat.strong_induction_on with
  | _ n ih =>
    rw [natChars_eq]
    by_cases h : n / 10 = 0
    · rw [if_pos h]
      intro c hc
      rw [List.mem_singleton] at hc
      subst hc
      exact digit_char_mem (n % 10) (Nat.mod_lt _ (by decide))
    · rw [if_neg h]
      intro c hc
      have hlt : n / 10 < n :=
        Nat.div_lt_self (Nat.pos_of_ne_zero (fun h0 => h (by rw [h0]))) (by decide)
      rcases List.mem_append.mp hc with h1 | h2
      · exact ih (n / 10) hlt c h1
      · rw [List.mem_singleton] at h2
        subst h2
        exact digit_char_mem (n % 10) (Nat.mod_lt _ (by decide))

/-- A rendered natural number is never empty. -/
theorem natChars_ne_nil (n : Nat) : natChars n ≠ [] := by
  rw [natChars_eq]
  split
  · simp
  · simp

/-- A rendered natural number starts with a digit. -/
theorem natChars_head (n : Nat) : ∃ c t, natChars n = c :: t ∧ c ∈ digitChars := by
  rcases hx : natChars n with _ | ⟨c, t⟩
  · exact absurd hx (natChars_ne_nil n)
  · exact ⟨c, t, rfl, natChars_digits n c (by rw [hx]; exact List.mem_cons_self c t)⟩

/-- Decimal rendering of natural numbers is injective. -/
theorem natChars_inj (m : Nat) : ∀ n, natChars m = natChars n → m = n := by
  induction m using Nat.strong_induction_on with
  | _ m ih =>
    intro n h
    rw [natChars_eq m, natChars_eq n] at h
    by_cases hm : m / 10 = 0 <;> by_cases hn : n / 10 = 0
    · rw [if_pos hm, if_pos hn] at h
      have h1 : Char.ofNat (48 + m % 10) = Char.ofNat (48 + n % 10) := by
        injection h
      have := digit_char_inj (m % 10) (n % 10) (Nat.mod_lt _ (by decide))
        (Nat.mod_lt _ (by decide)) h1
      omega
    · rw [if_pos hm, if_neg hn] at h
      exfalso
      have hlen := congrArg List.length h
      simp at hlen
      exact natChars_ne_nil (n / 10) hlen
    · rw [if_neg hm, if_pos hn] at h
      exfalso
      have hlen := congrArg List.length h
      simp at hlen
      exact natChars_ne_nil (m / 10) hlen
    · rw [if_neg hm, if_neg hn] at h
      obtain ⟨h1, h2⟩ := List.append_inj' h rfl
      have h2' : Char.ofNat (48 + m % 10) = Char.ofNat (48 + n % 10) := by
        injection h2
      have hmod := digit_char_inj (m % 10) (n % 10) (Nat.mod_lt _ (by decide))
        (Nat.mod_lt _ (by decide)) h2'
      have hlt : m / 10 < m :=
        Nat.div_lt_self (Nat.pos_of_ne_zero (fun h0 => hm (by rw [h0]))) (by decide)
      have hdiv := ih (m / 10) hlt (n / 10) h1
      omega

/-- A run of digits followed by a non-digit boundary is parsed unambiguously
out of a character stream. -/
theorem digit_run_boundary :
    ∀ (xs1 xs2 r1 r2 : List Char),
      (∀ c ∈ xs1, c ∈ digitChars) → (∀ c ∈ xs2, c ∈ digitChars) →
      noDigitHead r1 → noDigitHead r2 →
      xs1 ++ r1 = xs2 ++ r2 → xs1 = xs2 ∧ r1 = r2 := by
  intro xs1
  induction xs1 with
  | nil =>
      intro xs2 r1 r2 hd1 hd2 hn1 hn2 heq
      cases xs2 with
      | nil => exact ⟨rfl, heq⟩
      | cons c t =>
          exfalso
          simp only [List.nil_append, List.cons_append] at heq
          exact hn1 c (by rw [heq]; rfl) (hd2 c (List.mem_cons_self c t))
  | cons c cs ih =>
      intro xs2 r1 r2 hd1 hd2 hn1 hn2 heq
      cases xs2 with
      | nil =>
          exfalso
          simp only [List.nil_append, List.cons_append] at heq
          exact hn2 c (by rw [← heq]; rfl) (hd1 c (List.mem_cons_self c cs))
      | cons c2 t2 =>
          simp only [List.cons_append, List.cons.injEq] at heq
          obtain ⟨hc, ht⟩ := heq
          obtain ⟨h1, h2⟩ := ih t2 r1 r2 (fun x hx => hd1 x (List.mem_cons_of_mem c hx))
            (fun x hx => hd2 x (List.mem_cons_of_mem c2 hx)) hn1 hn2 ht
          exact ⟨by rw [hc, h1], h2⟩

/-- A serialized integer followed by a non-digit boundary determines the
integer and the rest of the stream. -/
theorem intChars_det (m n : Int) (r1 r2 : List Char)
    (hn1 : noDigitHead r1) (hn2 : noDigitHead r2)
    (heq : intChars m ++ r1 = intChars n ++ r2) : m = n ∧ r1 = r2 := by
  unfold intChars at heq
  by_cases hm : m < 0 <;> by_cases hn : n < 0
  · rw [if_pos hm, if_pos hn] at heq
    simp only [List.cons_append, List.cons.injEq] at heq
    obtain ⟨-, ht⟩ := heq
    obtain ⟨habs, hr⟩ := digit_run_boundary _ _ _ _ (natChars_digits _) (natChars_digits _)
      hn1 hn2 ht
    have := natChars_inj _ _ habs
    exact ⟨by omega, hr⟩
  · rw [if_pos hm, if_neg hn] at heq
    exfalso
    obtain ⟨c, t, hct, hcd⟩ := natChars_head n.natAbs
    rw [hct] at heq
    simp only [List.cons_append, List.cons.injEq] at heq
    obtain ⟨hc, -⟩ := heq
    rw [← hc] at hcd
    exact absurd hcd (by decide)
  · rw [if_neg hm, if_pos hn] at heq
    exfalso
    obtain ⟨c, t, hct, hcd⟩ := natChars_head m.natAbs
    rw [hct] at heq
    simp only [List.cons_append, List.cons.injEq] at heq
    obtain ⟨hc, -⟩ := heq
    rw [hc] at hcd
    exact absurd hcd (by decide)
  · rw [if_neg hm, if_neg hn] at heq
    obtain ⟨habs, hr⟩ := digit_run_boundary _ _ _ _ (natChars_digits _) (natChars_digits _)
      hn1 hn2 heq
    have := natChars_inj _ _ habs
    exact ⟨by omega, hr⟩

/-- Every serialized JSON value is a nonempty character list. -/
theorem stringify_head (j : Json) : ∃ c t, Json.stringifyChars j = c :: t := by
  cases j with
  | null => exact ⟨'n', _, rfl⟩
  | bool b => cases b with
      | true => exact ⟨'t', _, rfl⟩
      | false => exact ⟨'f', _, rfl⟩
  | num n =>
      show ∃ c t, intChars n = c :: t
      unfold intChars
      by_cases hm : n < 0
      · rw [if_pos hm]
        exact ⟨'-', _, rfl⟩
      · rw [if_neg hm]
        obtain ⟨c, t, hct, -⟩ := natChars_head n.natAbs
        exact ⟨c, t, hct⟩
  | str s => exact ⟨'"', _, rfl⟩
  | arr elems => exact ⟨'[', _, rfl⟩
  | obj fields => exact ⟨lbraceChar, _, rfl⟩

/-- The first character of a serialized JSON value classifies its
constructor. -/
theorem headclass_stringify (j : Json) (c : Char) (t : List Char)
    (h : Json.stringifyChars j = c :: t) : headClass c = ctorIdx j := by
  cases j with
  | null =>
      have : c = 'n' := by injection h with h1 _; exact h1.symm
      subst this
      decide
  | bool b =>
      cases b with
      | true =>
          have : c = 't' := by injection h with h1 _; exact h1.symm
          subst this
          decide
      | false =>
          have : c = 'f' := by injection h with h1 _; exact h1.symm
          subst this
          decide
  | num n =>
      have h' : intChars n = c :: t := h
      unfold intChars at h'
      by_cases hm : n < 0
      · rw [if_pos hm] at h'
        have : c = '-' := by injection h' with h1 _; exact h1.symm
        subst this
        exact (by decide : headClass '-' = 2)
      · rw [if_neg hm] at h'
        obtain ⟨c0, t0, hct, hcd⟩ := natChars_head n.natAbs
        rw [hct] at h'
        have : c0 = c := ((List.cons.injEq c0 t0 c t).mp h').1
        subst this
        show headClass c0 = 2
        fin_cases hcd <;> decide
  | str s =>
      have : c = '"' := by injection h with h1 _; exact h1.symm
      subst this
      exact (by decide : headClass '"' = 3)
  | arr elems =>
      have : c = '[' := by injection h with h1 _; exact h1.symm
      subst this
      exact (by decide : headClass '[' = 4)
  | obj fields =>
      have : c = lbraceChar := by injection h with h1 _; exact h1.symm
      subst this
      exact (by decide : headClass lbraceChar = 5)

/-- Constructor indices are at most 5. -/
theorem ctorIdx_le (j : Json) : ctorIdx j ≤ 5 := by
  cases j <;> simp [ctorIdx]

/-- No serialized JSON value starts with a delimiter character (one whose
class is 9, such as a comma, colon or closing bracket). -/
theorem stringify_head_ne (j : Json) (c : Char) (hc : headClass c = 9) (t : List Char) :
    Json.stringifyChars j ≠ c :: t := by
  intro h
  have h1 := headclass_stringify j c t h
  have h2 := ctorIdx_le j
  omega

/-- Unfolding equation for `strBody` on nil. -/
theorem strBody_nil : strBody [] = [] := rfl

/-- Unfolding equation for `strBody` on cons. -/
theorem strBody_cons (c : Char) (t : List Char) :
    strBody (c :: t) = escChar c ++ strBody t := rfl

/-- Case analysis of the escape of one character. -/
theorem escChar_cases (c : Char) :
    (escChar c = [c] ∧ c ≠ '"' ∧ c ≠ '\\') ∨
    (c = '"' ∧ escChar c = ['\\', '"']) ∨
    (c = '\\' ∧ escChar c = ['\\', '\\']) := by
  by_cases h1 : c = '"'
  · subst h1
    right
    left
    exact ⟨rfl, by unfold escChar; rw [if_pos rfl]⟩
  · by_cases h2 : c = '\\'
    · subst h2
      right
      right
      exact ⟨rfl, by unfold escChar; rw [if_neg (by decide), if_pos rfl]⟩
    · left
      exact ⟨by unfold escChar; rw [if_neg h1, if_neg h2], h1, h2⟩

/-- An escaped string body terminated by its closing quote determines the raw
characters and the rest of the stream. -/
theorem strBody_det : ∀ (cs1 cs2 r1 r2 : List Char),
    strBody cs1 ++ '"' :: r1 = strBody cs2 ++ '"' :: r2 → cs1 = cs2 ∧ r1 = r2 := by
  intro cs1
  induction cs1 with
  | nil =>
      intro cs2 r1 r2 heq
      cases cs2 with
      | nil =>
          simp only [strBody_nil, List.nil_append, List.cons.injEq] at heq
          exact ⟨rfl, heq.2⟩
      | cons c2 t2 =>
          exfalso
          rw [strBody_nil, strBody_cons] at heq
          rcases escChar_cases c2 with ⟨he, hq, hb⟩ | ⟨hc, he⟩ | ⟨hc, he⟩ <;> rw [he] at heq <;>
            simp only [List.nil_append, List.cons_append, List.append_assoc,
              List.cons.injEq] at heq
          · exact hq heq.1.symm
          · exact absurd heq.1 (by decide)
          · exact absurd heq.1 (by decide)
  | cons c1 t1 ih =>
      intro cs2 r1 r2 heq
      cases cs2 with
      | nil =>
          exfalso
          rw [strBody_cons, strBody_nil] at heq
          rcases escChar_cases c1 with ⟨he, hq, hb⟩ | ⟨hc, he⟩ | ⟨hc, he⟩ <;> rw [he] at heq <;>
            simp only [List.nil_append, List.cons_append, List.append_assoc,
              List.cons.injEq] at heq
          · exact hq heq.1
          · exact absurd heq.1 (by decide)
          · exact absurd heq.1 (by decide)
      | cons c2 t2 =>
          rw [strBody_cons, strBody_cons] at heq
          rcases escChar_cases c1 with ⟨he1, hq1, hb1⟩ | ⟨hc1, he1⟩ | ⟨hc1, he1⟩ <;>
            rcases escChar_cases c2 with ⟨he2, hq2, hb2⟩ | ⟨hc2, he2⟩ | ⟨hc2, he2⟩ <;>
            rw [he1, he2] at heq <;>
            simp only [List.nil_append, List.cons_append, List.append_assoc,
              List.cons.injEq] at heq
          · obtain ⟨hc, ht⟩ := heq
            obtain ⟨ht', hr⟩ := ih t2 r1 r2 ht
            exact ⟨by rw [hc, ht'], hr⟩
          · exact absurd heq.1 hb1
          · exact absurd heq.1 hb1
          · exact absurd heq.1.symm hb2
          · subst hc1
            subst hc2
            obtain ⟨ht', hr⟩ := ih t2 r1 r2 heq.2.2
            exact ⟨by rw [ht'], hr⟩
          · exact absurd heq.2.1 (by decide)
          · exact absurd heq.1.symm hb2
          · exact absurd heq.2.1 (by decide)
          · subst hc1
            subst hc2
            obtain ⟨ht', hr⟩ := ih t2 r1 r2 heq.2.2
            exact ⟨by rw [ht'], hr⟩

/-- The empty continuation is a valid delimiter for any value. -/
theorem tailOk_nil (j : Json) : tailOk j [] := by
  cases j <;> try trivial
  intro c h
  simp at h

/-- A continuation starting with a non-digit is a valid delimiter for any
value. -/
theorem tailOk_cons (j : Json) (c : Char) (r : List Char) (hc : c ∉ digitChars) :
    tailOk j (c :: r) := by
  cases j <;> try trivial
  intro c' h
  simp only [List.head?_cons, Option.some.injEq] at h
  exact h ▸ hc

/-- The comma-separated body of a serialized array, terminated by its closing
bracket, determines the elements and the rest of the stream — given
determinism for the serialized elements themselves. -/
theorem stringifyArr_det :
    ∀ (xs1 xs2 : List Json) (r1 r2 : List Char),
      (∀ x ∈ xs1, ∀ (y : Json) (u1 u2 : List Char), tailOk x u1 → tailOk y u2 →
        Json.stringifyChars x ++ u1 = Json.stringifyChars y ++ u2 → x = y ∧ u1 = u2) →
      Json.stringifyArr xs1 ++ ']' :: r1 = Json.stringifyArr xs2 ++ ']' :: r2 →
      xs1 = xs2 ∧ r1 = r2 := by
  intro xs1
  induction xs1 with
  | nil =>
      intro xs2 r1 r2 hdet heq
      cases xs2 with
      | nil => exact ⟨rfl, by simpa [Json.stringifyArr] using heq⟩
      | cons y ys =>
          exfalso
          obtain ⟨c, t, hct⟩ := stringify_head y
          cases ys with
          | nil =>
              simp only [Json.stringifyArr] at heq
              rw [hct] at heq
              simp only [List.nil_append, List.cons_append, List.cons.injEq] at heq
              exact stringify_head_ne y ']' (by decide) t (by rw [hct, heq.1])
          | cons y2 ys2 =>
              simp only [Json.stringifyArr] at heq
              rw [hct] at heq
              simp only [List.nil_append, List.cons_append, List.append_assoc,
                List.cons.injEq] at heq
              exact stringify_head_ne y ']' (by decide) t (by rw [hct, heq.1])
  | cons x xs ihl =>
      intro xs2 r1 r2 hdet heq
      cases xs2 with
      | nil =>
          exfalso
          obtain ⟨c, t, hct⟩ := stringify_head x
          cases xs with
          | nil =>
              simp only [Json.stringifyArr] at heq
              rw [hct] at heq
              simp only [List.nil_append, List.cons_append, List.cons.injEq] at heq
              exact stringify_head_ne x ']' (by decide) t (by rw [hct, ← heq.1])
          | cons x2 xs2' =>
              simp only [Json.stringifyArr] at heq
              rw [hct] at heq
              simp only [List.nil_append, List.cons_append, List.append_assoc,
                List.cons.injEq] at heq
              exact stringify_head_ne x ']' (by decide) t (by rw [hct, ← heq.1])
      | cons y ys =>
          cases xs with
          | nil =>
              cases ys with
              | nil =>
                  simp only [Json.stringifyArr] at heq
                  obtain ⟨hxy, hu⟩ := hdet x (List.mem_cons_self x []) y (']' :: r1)
                    (']' :: r2) (tailOk_cons x ']' r1 (by decide))
                    (tailOk_cons y ']' r2 (by decide)) heq
                  have hr : r1 = r2 := by injection hu
                  exact ⟨by rw [hxy], hr⟩
              | cons y2 ys2 =>
                  exfalso
                  simp only [Json.stringifyArr] at heq
                  rw [List.append_assoc, List.cons_append] at heq
                  obtain ⟨hxy, hu⟩ := hdet x (List.mem_cons_self x []) y (']' :: r1)
                    (',' :: (Json.stringifyArr (y2 :: ys2) ++ ']' :: r2))
                    (tailOk_cons x ']' r1 (by decide))
                    (tailOk_cons y ',' _ (by decide)) heq
                  have hh : ']' = ',' := by injection hu
                  exact absurd hh (by decide)
          | cons x2 xs2' =>
              cases ys with
              | nil =>
                  exfalso
                  simp only [Json.stringifyArr] at heq
                  rw [List.append_assoc, List.cons_append] at heq
                  obtain ⟨hxy, hu⟩ := hdet x (List.mem_cons_self x (x2 :: xs2')) y
                    (',' :: (Json.stringifyArr (x2 :: xs2') ++ ']' :: r1)) (']' :: r2)
                    (tailOk_cons x ',' _ (by decide))
                    (tailOk_cons y ']' r2 (by decide)) heq
                  have hh : ',' = ']' := by injection hu
                  exact absurd hh (by decide)
              | cons y2 ys2 =>
                  simp only [Json.stringifyArr] at heq
                  rw [List.append_assoc, List.append_assoc, List.cons_append,
                    List.cons_append] at heq
                  obtain ⟨hxy, hu⟩ := hdet x (List.mem_cons_self x (x2 :: xs2')) y
                    (',' :: (Json.stringifyArr (x2 :: xs2') ++ ']' :: r1))
                    (',' :: (Json.stringifyArr (y2 :: ys2) ++ ']' :: r2))
                    (tailOk_cons x ',' _ (by decide))
                    (tailOk_cons y ',' _ (by decide)) heq
                  have htails : Json.stringifyArr (x2 :: xs2') ++ ']' :: r1
                      = Json.stringifyArr (y2 :: ys2) ++ ']' :: r2 := by injection hu
                  obtain ⟨hxs, hr⟩ := ihl (y2 :: ys2) r1 r2
                    (fun z hz => hdet z (List.mem_cons_of_mem x hz)) htails
                  exact ⟨by rw [hxy, hxs], hr⟩

/-- The comma-separated body of a serialized object, terminated by its closing
brace, determines the fields and the rest of the stream — given determinism
for the serialized field values. -/
theorem stringifyObj_det :
    ∀ (fs1 fs2 : List (String × Json)) (r1 r2 : List Char),
      (∀ kv ∈ fs1, ∀ (y : Json) (u1 u2 : List Char), tailOk kv.2 u1 → tailOk y u2 →
        Json.stringifyChars kv.2 ++ u1 = Json.stringifyChars y ++ u2 → kv.2 = y ∧ u1 = u2) →
      Json.stringifyObj fs1 ++ rbraceChar :: r1 = Json.stringifyObj fs2 ++ rbraceChar :: r2 →
      fs1 = fs2 ∧ r1 = r2 := by
  intro fs1
  induction fs1 with
  | nil =>
      intro fs2 r1 r2 hdet heq
      cases fs2 with
      | nil => exact ⟨rfl, by simpa [Json.stringifyObj] using heq⟩
      | cons kv2 fs2' =>
          exfalso
          obtain ⟨k2, v2⟩ := kv2
          cases fs2' with
          | nil =>
              simp only [Json.stringifyObj, List.nil_append, List.cons_append,
                List.append_assoc, List.cons.injEq] at heq
              exact absurd heq.1 (by decide)
          | cons f2 rest2 =>
              simp only [Json.stringifyObj, List.nil_append, List.cons_append,
                List.append_assoc, List.cons.injEq] at heq
              exact absurd heq.1 (by decide)
  | cons kv1 fs1' ihl =>
      intro fs2 r1 r2 hdet heq
      obtain ⟨k1, v1⟩ := kv1
      cases fs2 with
      | nil =>
          exfalso
          cases fs1' with
          | nil =>
              simp only [Json.stringifyObj, List.nil_append, List.cons_append,
                List.append_assoc, List.cons.injEq] at heq
              exact absurd heq.1 (by decide)
          | cons f1 rest1 =>
              simp only [Json.stringifyObj, List.nil_append, List.cons_append,
                List.append_assoc, List.cons.injEq] at heq
              exact absurd heq.1 (by decide)
      | cons kv2 fs2' =>
          obtain ⟨k2, v2⟩ := kv2
          cases fs1' with
          | nil =>
              cases fs2' with
              | nil =>
                  simp only [Json.stringifyObj, List.cons_append, List.append_assoc,
                    List.cons.injEq, true_and] at heq
                  obtain ⟨hk, hrest⟩ := strBody_det k1.data k2.data _ _ heq
                  have hv' : Json.stringifyChars v1 ++ rbraceChar :: r1
                      = Json.stringifyChars v2 ++ rbraceChar :: r2 := by injection hrest
                  obtain ⟨hv, hu⟩ := hdet (k1, v1) (List.mem_cons_self _ _) v2 _ _
                    (tailOk_cons v1 rbraceChar r1 (by decide))
                    (tailOk_cons v2 rbraceChar r2 (by decide)) hv'
                  have hr : r1 = r2 := by injection hu
                  have hkk : k1 = k2 := by
                    cases k1
                    cases k2
                    exact congrArg String.mk hk
                  exact ⟨by rw [hkk, show v1 = v2 from hv], hr⟩
              | cons f2 rest2 =>
                  exfalso
                  simp only [Json.stringifyObj, List.cons_append, List.append_assoc,
                    List.cons.injEq, true_and] at heq
                  obtain ⟨hk, hrest⟩ := strBody_det k1.data k2.data _ _ heq
                  have hv' : Json.stringifyChars v1 ++ rbraceChar :: r1
                      = Json.stringifyChars v2
                        ++ ',' :: (Json.stringifyObj (f2 :: rest2) ++ rbraceChar :: r2) := by
                    injection hrest
                  obtain ⟨hv, hu⟩ := hdet (k1, v1) (List.mem_cons_self _ _) v2 _ _
                    (tailOk_cons v1 rbraceChar r1 (by decide))
                    (tailOk_cons v2 ',' _ (by decide)) hv'
                  have hh : rbraceChar = ',' := by injection hu
                  exact absurd hh (by decide)
          | cons f1 rest1 =>
              cases fs2' with
              | nil =>
                  exfalso
                  simp only [Json.stringifyObj, List.cons_append, List.append_assoc,
                    List.cons.injEq, true_and] at heq
                  obtain ⟨hk, hrest⟩ := strBody_det k1.data k2.data _ _ heq
                  have hv' : Json.stringifyChars v1
                        ++ ',' :: (Json.stringifyObj (f1 :: rest1) ++ rbraceChar :: r1)
                      = Json.stringifyChars v2 ++ rbraceChar :: r2 := by
                    injection hrest
                  obtain ⟨hv, hu⟩ := hdet (k1, v1) (List.mem_cons_self _ _) v2 _ _
                    (tailOk_cons v1 ',' _ (by decide))
                    (tailOk_cons v2 rbraceChar r2 (by decide)) hv'
                  have hh : ',' = rbraceChar := by injection hu
                  exact absurd hh (by decide)
              | cons f2 rest2 =>
                  simp only [Json.stringifyObj, List.cons_append, List.append_assoc,
                    List.cons.injEq, true_and] at heq
                  obtain ⟨hk, hrest⟩ := strBody_det k1.data k2.data _ _ heq
                  have hv' : Json.stringifyChars v1
                        ++ ',' :: (Json.stringifyObj (f1 :: rest1) ++ rbraceChar :: r1)
                      = Json.stringifyChars v2
                        ++ ',' :: (Json.stringifyObj (f2 :: rest2) ++ rbraceChar :: r2) := by
                    injection hrest
                  obtain ⟨hv, hu⟩ := hdet (k1, v1) (List.mem_cons_self _ _) v2 _ _
                    (tailOk_cons v1 ',' _ (by decide))
                    (tailOk_cons v2 ',' _ (by decide)) hv'
                  have htails : Json.stringifyObj (f1 :: rest1) ++ rbraceChar :: r1
                      = Json.stringifyObj (f2 :: rest2) ++ rbraceChar :: r2 := by
                    injection hu
                  obtain ⟨hfs, hr⟩ := ihl (f2 :: rest2) r1 r2
                    (fun z hz => hdet z (List.mem_cons_of_mem _ hz)) htails
                  have hkk : k1 = k2 := by
                    cases k1
                    cases k2
                    exact congrArg String.mk hk
                  exact ⟨by rw [hkk, show v1 = v2 from hv, hfs], hr⟩

/-- Prefix determinism of the JSON serializer: a serialized value followed by
a valid delimiter determines the value and the rest of the stream. -/
theorem stringify_det :
    ∀ (N : Nat) (j1 : Json), sizeOf j1 ≤ N → ∀ (j2 : Json) (r1 r2 : List Char),
      tailOk j1 r1 → tailOk j2 r2 →
      Json.stringifyChars j1 ++ r1 = Json.stringifyChars j2 ++ r2 →
      j1 = j2 ∧ r1 = r2 := by
  intro N
  induction N with
  | zero =>
      intro j1 hsz
      exfalso
      cases j1 <;> simp at hsz
  | succ N ih =>
      intro j1 hsz j2 r1 r2 ht1 ht2 heq
      obtain ⟨c1, t1h, h1⟩ := stringify_head j1
      obtain ⟨c2, t2h, h2⟩ := stringify_head j2
      have hcc : c1 = c2 := by
        rw [h1, h2] at heq
        simp only [List.cons_append, List.cons.injEq] at heq
        exact heq.1
      have hidx : ctorIdx j1 = ctorIdx j2 := by
        rw [← headclass_stringify j1 c1 t1h h1, ← headclass_stringify j2 c2 t2h h2, hcc]
      cases j1 <;> cases j2 <;> simp only [ctorIdx] at hidx <;> try omega
      · refine ⟨rfl, ?_⟩
        simpa [Json.stringifyChars] using heq
      · rename_i b1 b2
        cases b1 <;> cases b2
        · exact ⟨rfl, by simpa [Json.stringifyChars] using heq⟩
        · exact absurd heq (by simp [Json.stringifyChars])
        · exact absurd heq (by simp [Json.stringifyChars])
        · exact ⟨rfl, by simpa [Json.stringifyChars] using heq⟩
      · rename_i n1 n2
        simp only [Json.stringifyChars] at heq
        obtain ⟨hn, hr⟩ := intChars_det n1 n2 r1 r2 ht1 ht2 heq
        exact ⟨by rw [hn], hr⟩
      · rename_i s1 s2
        simp only [Json.stringifyChars, List.cons_append, List.append_assoc,
          List.singleton_append, List.cons.injEq, true_and] at heq
        obtain ⟨hs, hr⟩ := strBody_det s1.data s2.data r1 r2 heq
        refine ⟨?_, hr⟩
        cases s1
        cases s2
        exact congrArg (Json.str ∘ String.mk) hs
      · rename_i xs1 xs2
        simp only [Json.stringifyChars, List.cons_append, List.append_assoc,
          List.singleton_append, List.cons.injEq, true_and] at heq
        have hN : sizeOf xs1 ≤ N := by
          simp at hsz
          omega
        obtain ⟨hx, hr⟩ := stringifyArr_det xs1 xs2 r1 r2
          (fun x hx y u1 u2 hu1 hu2 he =>
            ih x (by have := List.sizeOf_lt_of_mem hx; omega) y u1 u2 hu1 hu2 he) heq
        exact ⟨by rw [hx], hr⟩
      · rename_i fs1 fs2
        simp only [Json.stringifyChars, List.cons_append, List.append_assoc,
          List.singleton_append, List.cons.injEq, true_and] at heq
        have hN : sizeOf fs1 ≤ N := by
          simp at hsz
          omega
        obtain ⟨hx, hr⟩ := stringifyObj_det fs1 fs2 r1 r2
          (fun kv hkv y u1 u2 hu1 hu2 he => by
            obtain ⟨k, v⟩ := kv
            have hm := List.sizeOf_lt_of_mem hkv
            have hp : sizeOf v < sizeOf (k, v) := by
              simp
            exact ih v (by omega) y u1 u2 hu1 hu2 he) heq
        exact ⟨by rw [hx], hr⟩

/-- The JSON serializer is injective on character lists. -/
theorem stringifyChars_inj (j1 j2 : Json)
    (h : Json.stringifyChars j1 = Json.stringifyChars j2) : j1 = j2 :=
  (stringify_det (sizeOf j1) j1 le_rfl j2 [] [] (tailOk_nil j1) (tailOk_nil j2)
    (by simpa using h)).1

/-- A serialized JSON value is never the empty string. -/
theorem stringifyChars_ne_nil (j : Json) : Json.stringifyChars j ≠ [] := by
  obtain ⟨c, t, hct⟩ := stringify_head j
  rw [hct]
  simp

/-- String-level injectivity of the modelled `JSON.stringify`. -/
theorem stringify_inj (p1 p2 : Json) (h : Json.stringify p1 = Json.stringify p2) :
    p1 = p2 := by
  apply stringifyChars_inj
  have := congrArg String.data h
  simpa [Json.stringify] using this

/-- C8 amended: `generateCacheKey` is deterministic (identical params give
identical keys); structurally different params give different keys provided at
least one of them is truthy (all falsy params — `0`, `false`, `""`, `null` —
alias the no-params key, as the counterexample shows); and a supplied custom
key wins regardless of the params provided it is non-empty (an empty-string
override is ignored). -/
theorem generateCacheKey_determinism (url : String) (p1 p2 : Json) (ck : String) :
    (p1 = p2 → ∀ k, generateCacheKey url (some p1) k = generateCacheKey url (some p2) k) ∧
    ((jsTruthy (some p1) = true ∨ jsTruthy (some p2) = true) → p1 ≠ p2 →
      generateCacheKey url (some p1) none ≠ generateCacheKey url (some p2) none) ∧
    (ck ≠ "" → ∀ (q : Option Json), generateCacheKey url q (some ck) = ck) := by
  refine ⟨fun h k => by rw [h], fun htr hne hkey => ?_, fun hck q => ?_⟩
  · have h1 : generateCacheKey url (some p1) none
        = url ++ ":" ++ (if jsTruthy (some p1) then Json.stringify p1 else "") := rfl
    have h2 : generateCacheKey url (some p2) none
        = url ++ ":" ++ (if jsTruthy (some p2) then Json.stringify p2 else "") := rfl
    rw [h1, h2] at hkey
    have hdata : ∀ a b : String, (a ++ b).data = a.data ++ b.data := fun a b => rfl
    have hd := congrArg String.data hkey
    rw [hdata, hdata, hdata, hdata] at hd
    have hX : (if jsTruthy (some p1) then Json.stringify p1 else "").data
        = (if jsTruthy (some p2) then Json.stringify p2 else "").data := by
      simpa [List.append_assoc] using hd
    rcases htr with ht1 | ht2
    · by_cases ht2' : jsTruthy (some p2) = true
      · rw [if_pos ht1, if_pos ht2'] at hX
        exact hne (stringifyChars_inj p1 p2 (by simpa [Json.stringify] using hX))
      · rw [if_pos ht1, if_neg (by simpa using ht2')] at hX
        exact stringifyChars_ne_nil p1 (by simpa [Json.stringify] using hX)
    · by_cases ht1' : jsTruthy (some p1) = true
      · rw [if_pos ht1', if_pos ht2] at hX
        exact hne (stringifyChars_inj p1 p2 (by simpa [Json.stringify] using hX))
      · rw [if_neg (by simpa using ht1'), if_pos ht2] at hX
        exact stringifyChars_ne_nil p2 (by simpa [Json.stringify] using hX.symm)
  · have hs : strTruthy (some ck) = true := by
      simp [strTruthy, hck]
    unfold generateCacheKey
    rw [if_pos hs]
    rfl

/-- Witness for C8: different truthy params give different keys, and a
non-empty custom key wins. -/
theorem generateCacheKey_determinism_witness :
    generateCacheKey "api" (some (Json.num 1)) none
      ≠ generateCacheKey "api" (some (Json.num 2)) none ∧
    generateCacheKey "api" (some (Json.num 1)) (some "custom") = "custom" :=
  ⟨(generateCacheKey_determinism "api" (Json.num 1) (Json.num 2) "custom").2.1
      (Or.inl rfl) (fun h => by injection h with h1; exact absurd h1 (by decide)),
   (generateCacheKey_determinism "api" (Json.num 1) (Json.num 2) "custom").2.2
      (by decide) (some (Json.num 1))⟩

end ApiWeaver
